import Mathlib

/-!
Verification of the sszz refactoring detector (`sszz/sszz.py`).

The module is embedded shallowly: the git backend — queried in the source
through `git_compare_commits` (a `git diff -w --shortstat` call) — is
abstracted as a function argument `String → String → Changes` (or, in the
fallible variants, `String → String → Except ε Changes`), commit identifiers
are strings, and candidate commit sequences are lists of strings.
-/

/-- Aggregate line-change statistics between two revisions: the `Changes`
namedtuple of `sszz.py` with fields `insertions` and `deletions`. The
components are integers: the backend reports non-negative counts, but
`__sub__` is non-saturating and may produce negative components. -/
structure Changes where
  insertions : Int
  deletions : Int
deriving DecidableEq, Repr

namespace Changes

/-- Componentwise addition, translating `Changes.__add__`. -/
def add (x y : Changes) : Changes :=
  Changes.mk (x.insertions + y.insertions) (x.deletions + y.deletions)

instance : Add Changes := ⟨Changes.add⟩

/-- Componentwise subtraction, translating `Changes.__sub__`. -/
def sub (x y : Changes) : Changes :=
  Changes.mk (x.insertions - y.insertions) (x.deletions - y.deletions)

instance : Sub Changes := ⟨Changes.sub⟩

theorem add_def (x y : Changes) :
    x + y = Changes.mk (x.insertions + y.insertions) (x.deletions + y.deletions) := rfl

theorem sub_def (x y : Changes) :
    x - y = Changes.mk (x.insertions - y.insertions) (x.deletions - y.deletions) := rfl

end Changes

/-- Derived first-parent revision reference: the f-string `f"{commit}^1"`
built by both detector variants. The suffix is interpreted by the backend;
here it only matters that it is a distinct derived identifier. -/
def parentRef (commit : String) : String := commit ++ "^1"

/-- Relaxed detector, translating `check_refactoring_has_happened(repo_dir,
commit_a, commit_b)`. The source also builds the string `commit_bp` but
issues no query with it (the B' comparisons are commented out). -/
def check_refactoring_has_happened (git_compare_commits : String → String → Changes)
    (commit_a commit_b : String) : Bool :=
  let commit_ap := parentRef commit_a
  let changes_ap_to_a := git_compare_commits commit_ap commit_a
  let changes_ap_to_b := git_compare_commits commit_ap commit_b
  let changes_a_to_b := git_compare_commits commit_a commit_b
  let code_was_refactored_between_a_and_b :=
    decide (changes_ap_to_a + changes_a_to_b ≠ changes_ap_to_b)
  let code_was_refactored_by_b := code_was_refactored_between_a_and_b
  code_was_refactored_by_b

/-- Strict detector, translating `check_refactoring_commit(repo_dir,
commit_a, commit_b)`: five diff queries, result
`code_was_refactored_between_a_and_b and not code_was_refactored_between_a_and_bp`. -/
def check_refactoring_commit (git_compare_commits : String → String → Changes)
    (commit_a commit_b : String) : Bool :=
  let commit_ap := parentRef commit_a
  let commit_bp := parentRef commit_b
  let changes_ap_to_a := git_compare_commits commit_ap commit_a
  let changes_ap_to_bp := git_compare_commits commit_ap commit_bp
  let changes_ap_to_b := git_compare_commits commit_ap commit_b
  let changes_a_to_bp := git_compare_commits commit_a commit_bp
  let changes_a_to_b := git_compare_commits commit_a commit_b
  let code_was_refactored_between_a_and_b :=
    decide (changes_ap_to_a + changes_a_to_b ≠ changes_ap_to_b)
  let code_was_refactored_between_a_and_bp :=
    decide (changes_ap_to_a + changes_a_to_bp ≠ changes_ap_to_bp)
  let code_was_refactored_by_b :=
    code_was_refactored_between_a_and_b && !code_was_refactored_between_a_and_bp
  code_was_refactored_by_b

/-- Constant backend used by concrete witnesses: every diff query returns
`(1, 0)`, so the relaxed detector answers true on every pair. -/
def constDiff : String → String → Changes := fun _ _ => Changes.mk 1 0

/-- C9: `Changes` addition is componentwise and is commutative and
associative with `(0, 0)` as identity; subtraction is the componentwise
non-saturating difference (components may become negative, e.g.
`(0,0) - (1,2) = (-1,-2)`); and two `Changes` are equal iff both components
are equal. -/
theorem c9_changes_algebra :
    (∀ x y : Changes,
      x + y = Changes.mk (x.insertions + y.insertions) (x.deletions + y.deletions)) ∧
    (∀ x y : Changes, x + y = y + x) ∧
    (∀ x y z : Changes, x + y + z = x + (y + z)) ∧
    (∀ x : Changes, Changes.mk 0 0 + x = x) ∧
    (∀ x : Changes, x + Changes.mk 0 0 = x) ∧
    (∀ x y : Changes,
      x - y = Changes.mk (x.insertions - y.insertions) (x.deletions - y.deletions)) ∧
    (Changes.mk 0 0 - Changes.mk 1 2 = Changes.mk (-1) (-2)) ∧
    (∀ x y : Changes, x = y ↔ x.insertions = y.insertions ∧ x.deletions = y.deletions) := by
  refine ⟨fun x y => rfl, ?_, ?_, ?_, ?_, fun x y => rfl, by decide, ?_⟩
  · intro x y
    cases x; cases y
    simp [Changes.add_def, Int.add_comm]
  · intro x y z
    cases x; cases y; cases z
    simp [Changes.add_def, Int.add_assoc]
  · intro x
    cases x
    simp [Changes.add_def]
  · intro x
    cases x
    simp [Changes.add_def]
  · intro x y
    cases x; cases y
    simp

/-- C1: the relaxed detector returns true iff
`diffStat(A',A) + diffStat(A,B) ≠ diffStat(A',B)`, and its verdict depends
only on the three DiffStats `(A'→A)`, `(A'→B)`, `(A→B)` — two providers that
agree on those three pairs give the same answer — so no exclusion at B' is
applied. -/
theorem c1_relaxed_detector (diff : String → String → Changes) (commit_a commit_b : String) :
    (check_refactoring_has_happened diff commit_a commit_b = true ↔
      diff (parentRef commit_a) commit_a + diff commit_a commit_b ≠
        diff (parentRef commit_a) commit_b) ∧
    (∀ diff2 : String → String → Changes,
      diff2 (parentRef commit_a) commit_a = diff (parentRef commit_a) commit_a →
      diff2 (parentRef commit_a) commit_b = diff (parentRef commit_a) commit_b →
      diff2 commit_a commit_b = diff commit_a commit_b →
      check_refactoring_has_happened diff2 commit_a commit_b =
        check_refactoring_has_happened diff commit_a commit_b) := by
  constructor
  · simp [check_refactoring_has_happened]
  · intro diff2 h1 h2 h3
    simp only [check_refactoring_has_happened, h1, h2, h3]

/-- Witness for C1 at the constant provider: `(1,0)+(1,0) ≠ (1,0)`, so the
relaxed detector answers true on `("a", "b")`. -/
theorem c1_relaxed_detector_witness :
    check_refactoring_has_happened constDiff "a" "b" = true ↔
      constDiff (parentRef "a") "a" + constDiff "a" "b" ≠ constDiff (parentRef "a") "b" :=
  (c1_relaxed_detector constDiff "a" "b").1

/-- C2: the strict detector computes the five DiffStats `(A'→A)`, `(A'→B')`,
`(A'→B)`, `(A→B')`, `(A→B)` — its verdict depends only on those five pairs —
and returns true iff `diffStat(A',A) + diffStat(A,B) ≠ diffStat(A',B)` holds
while `diffStat(A',A) + diffStat(A,B') ≠ diffStat(A',B')` does not. -/
theorem c2_strict_detector (diff : String → String → Changes) (commit_a commit_b : String) :
    (check_refactoring_commit diff commit_a commit_b = true ↔
      (diff (parentRef commit_a) commit_a + diff commit_a commit_b ≠
          diff (parentRef commit_a) commit_b ∧
        ¬(diff (parentRef commit_a) commit_a + diff commit_a (parentRef commit_b) ≠
          diff (parentRef commit_a) (parentRef commit_b)))) ∧
    (∀ diff2 : String → String → Changes,
      diff2 (parentRef commit_a) commit_a = diff (parentRef commit_a) commit_a →
      diff2 (parentRef commit_a) (parentRef commit_b) =
        diff (parentRef commit_a) (parentRef commit_b) →
      diff2 (parentRef commit_a) commit_b = diff (parentRef commit_a) commit_b →
      diff2 commit_a (parentRef commit_b) = diff commit_a (parentRef commit_b) →
      diff2 commit_a commit_b = diff commit_a commit_b →
      check_refactoring_commit diff2 commit_a commit_b =
        check_refactoring_commit diff commit_a commit_b) := by
  constructor
  · simp [check_refactoring_commit]
  · intro diff2 h1 h2 h3 h4 h5
    simp only [check_refactoring_commit, h1, h2, h3, h4, h5]

/-- Witness for C2 at the constant provider: the additivity mismatch holds at
B and at B' alike, so the strict detector answers false on `("a", "b")`. -/
theorem c2_strict_detector_witness :
    check_refactoring_commit constDiff "a" "b" = true ↔
      (constDiff (parentRef "a") "a" + constDiff "a" "b" ≠ constDiff (parentRef "a") "b" ∧
        ¬(constDiff (parentRef "a") "a" + constDiff "a" (parentRef "b") ≠
          constDiff (parentRef "a") (parentRef "b"))) :=
  (c2_strict_detector constDiff "a" "b").1

/-- Linear search, translating `find_refactoring_commit(repo_dir,
commit_sha)`. In the source the candidate sequence is produced by
`get_all_commits_since`; here it is passed explicitly, and
`next((c for c in seq if pred(c)), None)` is the first element satisfying
the relaxed detector, else `none`. -/
def find_refactoring_commit (git_compare_commits : String → String → Changes)
    (commit_sha : String) (future_commits : List String) : Option String :=
  future_commits.find? (fun future_commit =>
    check_refactoring_has_happened git_compare_commits commit_sha future_commit)

/-- Binary search, translating `find_refactoring_commit_binary(repo_dir,
commit_sha, future_commits)` (the `future_commits is None` default again
stands for the sequence from `get_all_commits_since`). The Python slices
`future_commits[:i+1]` and `future_commits[i+1:]` are `take (i+1)` and
`drop (i+1)`; `int((len-1)/2)` is Nat division since `len - 1 ≥ 0`. -/
def find_refactoring_commit_binary (git_compare_commits : String → String → Changes)
    (commit_sha : String) (future_commits : List String) : Option String :=
  if h0 : future_commits.length = 0 then
    none
  else
    let future_commit_index := (future_commits.length - 1) / 2
    have hi : future_commit_index < future_commits.length :=
      Nat.lt_of_le_of_lt (Nat.div_le_self _ _)
        (Nat.sub_lt (Nat.pos_of_ne_zero h0) Nat.one_pos)
    let future_commit := future_commits.get ⟨future_commit_index, hi⟩
    if check_refactoring_has_happened git_compare_commits commit_sha future_commit then
      if h1 : future_commits.length = 1 then
        some (future_commits.get ⟨0, Nat.pos_of_ne_zero h0⟩)
      else
        find_refactoring_commit_binary git_compare_commits commit_sha
          (future_commits.take (future_commit_index + 1))
    else
      find_refactoring_commit_binary git_compare_commits commit_sha
        (future_commits.drop (future_commit_index + 1))
termination_by future_commits.length
decreasing_by
  · have hlt : (future_commits.length - 1) / 2 < future_commits.length - 1 :=
      Nat.div_lt_self (by omega) (by omega)
    simp only [List.length_take]
    omega
  · simp only [List.length_drop]
    omega

theorem list_getD_eq_get (l : List String) (i : Nat) (h : i < l.length) :
    l.getD i "" = l.get ⟨i, h⟩ := by
  simp [List.getD_eq_getElem?_getD, List.getElem?_eq_getElem h, List.get_eq_getElem]

theorem binary_nil (diff : String → String → Changes) (commit_sha : String) :
    find_refactoring_commit_binary diff commit_sha [] = none := by
  rw [find_refactoring_commit_binary]
  simp

theorem binary_unfold (diff : String → String → Changes) (commit_sha : String)
    (s : List String) (h0 : s.length ≠ 0) :
    find_refactoring_commit_binary diff commit_sha s =
      if check_refactoring_has_happened diff commit_sha
          (s.get ⟨(s.length - 1) / 2,
            Nat.lt_of_le_of_lt (Nat.div_le_self _ _)
              (Nat.sub_lt (Nat.pos_of_ne_zero h0) Nat.one_pos)⟩) then
        (if s.length = 1 then some (s.get ⟨0, Nat.pos_of_ne_zero h0⟩)
         else find_refactoring_commit_binary diff commit_sha
           (s.take ((s.length - 1) / 2 + 1)))
      else find_refactoring_commit_binary diff commit_sha
        (s.drop ((s.length - 1) / 2 + 1)) := by
  conv_lhs => rw [find_refactoring_commit_binary]
  simp only [h0, dite_false, dif_neg]
  split
  · split
    · rename_i h1
      simp [h1]
    · rename_i h1
      simp [h1]
  · rfl

/-- Monotonicity of a predicate over a candidate sequence, as assumed by the
spec for the binary strategy: once true at some position, true at every later
position. -/
def MonoOn (p : String → Bool) (s : List String) : Prop :=
  ∀ i j (hi : i < s.length) (hj : j < s.length), i ≤ j →
    p (s.get ⟨i, hi⟩) = true → p (s.get ⟨j, hj⟩) = true

theorem mono_take (p : String → Bool) (s : List String) (n : Nat) (h : MonoOn p s) :
    MonoOn p (s.take n) := by
  intro i j hi hj hij hp
  have hi0 := hi
  have hj0 := hj
  simp only [List.length_take] at hi0 hj0
  have hi' : i < s.length := by omega
  have hj' : j < s.length := by omega
  have ei : (s.take n).get ⟨i, hi⟩ = s.get ⟨i, hi'⟩ := by
    simp [List.get_eq_getElem, List.getElem_take]
  have ej : (s.take n).get ⟨j, hj⟩ = s.get ⟨j, hj'⟩ := by
    simp [List.get_eq_getElem, List.getElem_take]
  rw [ej]
  rw [ei] at hp
  exact h i j hi' hj' hij hp

theorem mono_drop (p : String → Bool) (s : List String) (n : Nat) (h : MonoOn p s) :
    MonoOn p (s.drop n) := by
  intro i j hi hj hij hp
  have hi0 := hi
  have hj0 := hj
  simp only [List.length_drop] at hi0 hj0
  have hi' : n + i < s.length := by omega
  have hj' : n + j < s.length := by omega
  have ei : (s.drop n).get ⟨i, hi⟩ = s.get ⟨n + i, hi'⟩ := by
    simp [List.get_eq_getElem, List.getElem_drop]
  have ej : (s.drop n).get ⟨j, hj⟩ = s.get ⟨n + j, hj'⟩ := by
    simp [List.get_eq_getElem, List.getElem_drop]
  rw [ej]
  rw [ei] at hp
  exact h (n + i) (n + j) hi' hj' (by omega) hp

theorem find?_eq_of_take_some (p : String → Bool) (s : List String) (n : Nat) (y : String)
    (h : (s.take n).find? p = some y) : s.find? p = some y := by
  conv_lhs => rw [← List.take_append_drop n s]
  rw [List.find?_append, h]
  rfl

theorem find?_eq_drop_of_take_false (p : String → Bool) (s : List String) (n : Nat)
    (h : ∀ x ∈ s.take n, p x = false) :
    s.find? p = (s.drop n).find? p := by
  conv_lhs => rw [← List.take_append_drop n s]
  rw [List.find?_append]
  have hnone : (s.take n).find? p = none :=
    List.find?_eq_none.mpr (fun x hx => by simp [h x hx])
  rw [hnone, Option.none_or]

theorem c3_aux (diff : String → String → Changes) (commit_sha : String) :
    ∀ n (s : List String), s.length ≤ n →
      MonoOn (check_refactoring_has_happened diff commit_sha) s →
      find_refactoring_commit_binary diff commit_sha s =
        find_refactoring_commit diff commit_sha s := by
  intro n
  induction n with
  | zero =>
    intro s hlen _
    have hs : s = [] := List.length_eq_zero.mp (Nat.le_zero.mp hlen)
    subst hs
    rw [binary_nil]
    rfl
  | succ n ih =>
    intro s hlen hmono
    by_cases h0 : s.length = 0
    · have hs : s = [] := List.length_eq_zero.mp h0
      subst hs
      rw [binary_nil]
      rfl
    · have hi : (s.length - 1) / 2 < s.length :=
        Nat.lt_of_le_of_lt (Nat.div_le_self _ _)
          (Nat.sub_lt (Nat.pos_of_ne_zero h0) Nat.one_pos)
      rw [binary_unfold diff commit_sha s h0]
      by_cases hp : check_refactoring_has_happened diff commit_sha
          (s.get ⟨(s.length - 1) / 2, hi⟩) = true
      · rw [if_pos hp]
        by_cases h1 : s.length = 1
        · rw [if_pos h1]
          obtain ⟨a, rfl⟩ := List.length_eq_one.mp h1
          have hpa : check_refactoring_has_happened diff commit_sha a = true := by
            simpa using hp
          show some a = [a].find? (fun c => check_refactoring_has_happened diff commit_sha c)
          rw [List.find?_cons_of_pos _ hpa]
        · rw [if_neg h1]
          have hlt : (s.length - 1) / 2 < s.length - 1 :=
            Nat.div_lt_self (by omega) (by omega)
          have hlen' : (s.take ((s.length - 1) / 2 + 1)).length ≤ n := by
            simp only [List.length_take]
            omega
          rw [ih (s.take ((s.length - 1) / 2 + 1)) hlen'
            (mono_take _ _ _ hmono)]
          have hmemlt : (s.length - 1) / 2 < (s.take ((s.length - 1) / 2 + 1)).length := by
            simp only [List.length_take]
            omega
          have hgete : (s.take ((s.length - 1) / 2 + 1)).get ⟨(s.length - 1) / 2, hmemlt⟩ =
              s.get ⟨(s.length - 1) / 2, hi⟩ := by
            simp [List.get_eq_getElem, List.getElem_take]
          have hmem : s.get ⟨(s.length - 1) / 2, hi⟩ ∈ s.take ((s.length - 1) / 2 + 1) := by
            rw [← hgete]
            exact List.get_mem _ _ _
          have hne : (s.take ((s.length - 1) / 2 + 1)).find?
              (fun c => check_refactoring_has_happened diff commit_sha c) ≠ none := by
            rw [Ne, List.find?_eq_none]
            intro hall
            exact absurd hp (by simpa using hall _ hmem)
          obtain ⟨y, hy⟩ := Option.ne_none_iff_exists'.mp hne
          show (s.take ((s.length - 1) / 2 + 1)).find?
              (fun c => check_refactoring_has_happened diff commit_sha c) =
            s.find? (fun c => check_refactoring_has_happened diff commit_sha c)
          rw [hy, find?_eq_of_take_some _ s _ y hy]
      · rw [if_neg hp]
        have hall : ∀ x ∈ s.take ((s.length - 1) / 2 + 1),
            check_refactoring_has_happened diff commit_sha x = false := by
          intro x hx
          obtain ⟨j, hj, hx'⟩ := List.mem_iff_getElem.mp hx
          have hj0 := hj
          simp only [List.length_take] at hj0
          have hj' : j < s.length := by omega
          have hjle : j ≤ (s.length - 1) / 2 := by omega
          have hsx : s.get ⟨j, hj'⟩ = x := by
            rw [← hx']
            simp [List.get_eq_getElem, List.getElem_take]
          rcases Bool.eq_false_or_eq_true
              (check_refactoring_has_happened diff commit_sha x) with hb | hb
          · exfalso
            apply hp
            apply hmono j ((s.length - 1) / 2) hj' hi hjle
            rw [hsx]
            exact hb
          · exact hb
        have hlen' : (s.drop ((s.length - 1) / 2 + 1)).length ≤ n := by
          simp only [List.length_drop]
          omega
        rw [ih (s.drop ((s.length - 1) / 2 + 1)) hlen' (mono_drop _ _ _ hmono)]
        exact (find?_eq_drop_of_take_false _ s _ hall).symm

/-- C3: on every candidate sequence over which the relaxed predicate is
monotone (once true, true for every later commit), the binary search agrees
with the linear search: the oldest commit satisfying the predicate, or `none`
when no commit satisfies it. -/
theorem c3_binary_matches_linear (diff : String → String → Changes) (commit_sha : String)
    (s : List String)
    (hmono : MonoOn (check_refactoring_has_happened diff commit_sha) s) :
    find_refactoring_commit_binary diff commit_sha s =
      find_refactoring_commit diff commit_sha s :=
  c3_aux diff commit_sha s.length s le_rfl hmono

/-- Witness for C3: the constant provider makes the relaxed predicate
constantly true, hence monotone, on a three-commit candidate sequence. -/
theorem c3_binary_matches_linear_witness :
    find_refactoring_commit_binary constDiff "a" ["b1", "b2", "b3"] =
      find_refactoring_commit constDiff "a" ["b1", "b2", "b3"] :=
  c3_binary_matches_linear constDiff "a" ["b1", "b2", "b3"]
    (fun _ _ _ _ _ _ => rfl)

/-- C5: the binary search follows exactly the spec's steps: empty sequence
gives `none`; otherwise it evaluates the relaxed predicate at
`mid = s[floor((len-1)/2)]`; if true it returns `mid` when `len = 1` and
otherwise recurses on `s[0 .. mid_index]` inclusive; if false it recurses on
`s[mid_index+1 .. end]`. -/
theorem c5_binary_search_steps (diff : String → String → Changes) (commit_sha : String) :
    (find_refactoring_commit_binary diff commit_sha [] = none) ∧
    (∀ c rest,
      find_refactoring_commit_binary diff commit_sha (c :: rest) =
        if check_refactoring_has_happened diff commit_sha
            ((c :: rest).getD (((c :: rest).length - 1) / 2) "") then
          (if (c :: rest).length = 1 then some ((c :: rest).getD 0 "")
           else find_refactoring_commit_binary diff commit_sha
             ((c :: rest).take (((c :: rest).length - 1) / 2 + 1)))
        else find_refactoring_commit_binary diff commit_sha
          ((c :: rest).drop (((c :: rest).length - 1) / 2 + 1))) := by
  refine ⟨binary_nil diff commit_sha, ?_⟩
  intro c rest
  have h0 : (c :: rest).length ≠ 0 := by simp
  have hi : ((c :: rest).length - 1) / 2 < (c :: rest).length :=
    Nat.lt_of_le_of_lt (Nat.div_le_self _ _)
      (Nat.sub_lt (Nat.pos_of_ne_zero h0) Nat.one_pos)
  rw [binary_unfold diff commit_sha (c :: rest) h0,
    list_getD_eq_get (c :: rest) _ hi,
    list_getD_eq_get (c :: rest) 0 (Nat.pos_of_ne_zero h0)]

/-- Witness for C5 on a concrete two-commit sequence. -/
theorem c5_binary_search_steps_witness :
    find_refactoring_commit_binary constDiff "a" ("x" :: ["y"]) =
      if check_refactoring_has_happened constDiff "a"
          (("x" :: ["y"]).getD ((("x" :: ["y"]).length - 1) / 2) "") then
        (if ("x" :: ["y"]).length = 1 then some (("x" :: ["y"]).getD 0 "")
         else find_refactoring_commit_binary constDiff "a"
           (("x" :: ["y"]).take ((("x" :: ["y"]).length - 1) / 2 + 1)))
      else find_refactoring_commit_binary constDiff "a"
        (("x" :: ["y"]).drop ((("x" :: ["y"]).length - 1) / 2 + 1)) :=
  (c5_binary_search_steps constDiff "a").2 "x" ["y"]

/-- C4: the linear search returns `none` on the empty sequence and when no
candidate satisfies the relaxed predicate, and returns the first (oldest)
satisfying commit; the result is `some b` for every possible continuation of
the sequence past `b`, so no commit after the first match influences the
outcome (short-circuit). -/
theorem c4_linear_search (diff : String → String → Changes) (commit_sha : String) :
    (find_refactoring_commit diff commit_sha [] = none) ∧
    (∀ s, (∀ x ∈ s, check_refactoring_has_happened diff commit_sha x = false) →
      find_refactoring_commit diff commit_sha s = none) ∧
    (∀ s1 b s2, (∀ x ∈ s1, check_refactoring_has_happened diff commit_sha x = false) →
      check_refactoring_has_happened diff commit_sha b = true →
      find_refactoring_commit diff commit_sha (s1 ++ b :: s2) = some b) := by
  refine ⟨rfl, ?_, ?_⟩
  · intro s h
    exact List.find?_eq_none.mpr (fun x hx => by simp [h x hx])
  · intro s1 b s2 h1 h2
    show (s1 ++ b :: s2).find? (fun c => check_refactoring_has_happened diff commit_sha c) =
      some b
    rw [List.find?_append]
    have hnone : s1.find? (fun c => check_refactoring_has_happened diff commit_sha c) =
        none := List.find?_eq_none.mpr (fun x hx => by simp [h1 x hx])
    rw [hnone, Option.none_or, List.find?_cons_of_pos _ h2]

/-- Witness for C4: with the constant provider the head of the sequence
qualifies at once, whatever follows it. -/
theorem c4_linear_search_witness :
    find_refactoring_commit constDiff "a" ([] ++ "b" :: ["c"]) = some "b" :=
  (c4_linear_search constDiff "a").2.2 [] "b" ["c"] (by simp) rfl

/-- Zero backend used by the C6 witness: every diff query returns `(0, 0)`. -/
def zeroDiff : String → String → Changes := fun _ _ => Changes.mk 0 0

/-- C6: under the hypothesis that the backend reports `diffStat(X,X) = (0,0)`
for identical commits — `(0,0)` being the additive identity of `Changes` is
proved, not assumed — the relaxed detector on identical commits returns
false. -/
theorem c6_identical_commits (diff : String → String → Changes) (x : String)
    (h : diff x x = Changes.mk 0 0) :
    check_refactoring_has_happened diff x x = false := by
  have hadd : diff (parentRef x) x + diff x x = diff (parentRef x) x := by
    rw [h]
    cases hx : diff (parentRef x) x
    simp [Changes.add_def]
  simp [check_refactoring_has_happened, hadd]

/-- Witness for C6 at the zero provider, whose diagonal is `(0, 0)`. -/
theorem c6_identical_commits_witness :
    check_refactoring_has_happened zeroDiff "x" "x" = false :=
  c6_identical_commits zeroDiff "x" rfl

/-- Backend command failure: models `git.exc.GitCommandError`, whose `args`
tuple carries the command, the exit status and the error text, unpacked as
`_, _, error_message, *_` in `get_all_commits_since`. -/
structure GitCommandError where
  command : String
  status : Int
  errorMessage : String
deriving DecidableEq, Repr

/-- Exceptions declared in `sszz.py` under `SSZZException`:
`CommitWithoutParent` (the spec's `NoParent`) and `CommitNotFound`. -/
inductive SSZZException where
  | commitWithoutParent : SSZZException
  | commitNotFound : SSZZException
deriving DecidableEq, Repr

/-- Error outcomes of `get_all_commits_since`: the translated
`CommitNotFound`, or the re-raised backend error with its payload kept
verbatim. -/
inductive GetCommitsError where
  | commitNotFound : GetCommitsError
  | gitCommandError (e : GitCommandError) : GetCommitsError
deriving DecidableEq, Repr

/-- Character-list prefix test, auxiliary to the Python substring operator. -/
def listStartsWith : List Char → List Char → Bool
  | _, [] => true
  | [], _ :: _ => false
  | c :: cs, d :: ds => (c = d) && listStartsWith cs ds

/-- Python substring containment `needle in haystack` over character lists. -/
def listContainsSub (haystack needle : List Char) : Bool :=
  match haystack with
  | [] => listStartsWith [] needle
  | c :: cs => listStartsWith (c :: cs) needle || listContainsSub cs needle

/-- Invalid-range signal test, translating
`"Invalid revision range" in error_message.decode()`. -/
def invalidRangeSignal (e : GitCommandError) : Bool :=
  listContainsSub e.errorMessage.toList ("Invalid revision range".toList)

/-- Python's `str.split(sep)` over character lists: n separators yield n+1
(possibly empty) parts, so the result is never the empty list — in
particular `"".split(sep)` is `[""]`. -/
def pySplit (sep : Char) : List Char → List (List Char)
  | [] => [[]]
  | c :: cs =>
    if c = sep then [] :: pySplit sep cs
    else
      match pySplit sep cs with
      | [] => [[c]]
      | part :: parts => (c :: part) :: parts

/-- `output.split('\n')` lifted to `String`. -/
def pySplitLines (s : String) : List String :=
  (pySplit (Char.ofNat 10) s.toList).map (fun cs => String.mk cs)

/-- `get_all_commits_since(repo_dir, commit_sha)`: the backend call
`git log --pretty=%H {commit_sha}..HEAD` is abstracted as its outcome
`backend : Except GitCommandError String`. On success the newline-split
output is reversed (`output.split('\n')[::-1]`, newest-first to
oldest-first); on `GitCommandError` the message is inspected for the
invalid-range signal, every other backend failure being re-raised. -/
def get_all_commits_since (backend : Except GitCommandError String) :
    Except GetCommitsError (List String) :=
  match backend with
  | .ok output => .ok ((pySplitLines output).reverse)
  | .error git_error =>
    if invalidRangeSignal git_error then .error .commitNotFound
    else .error (.gitCommandError git_error)

theorem pySplit_ne_nil (sep : Char) (cs : List Char) : pySplit sep cs ≠ [] := by
  cases cs with
  | nil => simp [pySplit]
  | cons c cs =>
    simp only [pySplit]
    split
    · simp
    · split
      · simp
      · simp

/-- C7: `get_all_commits_since` raises `CommitNotFound` exactly when the
backend command fails with an error message carrying the invalid-range
signal; every other backend failure is re-raised with its payload unchanged
and unwrapped. -/
theorem c7_commit_not_found (r : Except GitCommandError String) :
    (get_all_commits_since r = .error .commitNotFound ↔
      ∃ e, r = .error e ∧ invalidRangeSignal e = true) ∧
    (∀ e, r = .error e → invalidRangeSignal e = false →
      get_all_commits_since r = .error (.gitCommandError e)) := by
  constructor
  · constructor
    · intro h
      cases r with
      | ok output => simp [get_all_commits_since] at h
      | error e =>
        refine ⟨e, rfl, ?_⟩
        cases hb : invalidRangeSignal e with
        | true => rfl
        | false => simp [get_all_commits_since, hb] at h
    · rintro ⟨e, rfl, hsig⟩
      simp [get_all_commits_since, hsig]
  · intro e hre hsig
    subst hre
    simp [get_all_commits_since, hsig]

/-- Witness for C7: a backend failure whose message has no invalid-range
signal is re-raised verbatim. -/
theorem c7_commit_not_found_witness :
    get_all_commits_since
        (.error (GitCommandError.mk "git log" 128 "fatal: bad object HEAD")) =
      .error (.gitCommandError
        (GitCommandError.mk "git log" 128 "fatal: bad object HEAD")) :=
  (c7_commit_not_found
    (.error (GitCommandError.mk "git log" 128 "fatal: bad object HEAD"))).2
    (GitCommandError.mk "git log" 128 "fatal: bad object HEAD") rfl rfl

/-- C10: for every backend log output, `get_all_commits_since` returns the
newline-split of the output reversed, which is never empty: empty output
yields the one-element list `[""]`, so the linear search's empty-sequence
case is unreachable through `get_all_commits_since` and the detector is
evaluated on the empty identifier instead. -/
theorem c10_split_never_empty (output : String) (diff : String → String → Changes)
    (commit_sha : String) :
    (get_all_commits_since (.ok output) = .ok ((pySplitLines output).reverse)) ∧
    ((pySplitLines output).reverse ≠ []) ∧
    (get_all_commits_since (.ok "") = .ok [""]) ∧
    (find_refactoring_commit diff commit_sha [""] =
      if check_refactoring_has_happened diff commit_sha "" then some "" else none) := by
  refine ⟨rfl, ?_, rfl, ?_⟩
  · simp only [Ne, List.reverse_eq_nil_iff, pySplitLines, List.map_eq_nil_iff]
    exact pySplit_ne_nil _ _
  · by_cases hb : check_refactoring_has_happened diff commit_sha "" = true
    · rw [if_pos hb]
      exact List.find?_cons_of_pos _ hb
    · rw [if_neg hb]
      show (List.find? _ [""] : Option String) = none
      rw [List.find?_cons_of_neg _ hb]
      rfl

/-- Witness for C10 at the empty backend output. -/
theorem c10_split_never_empty_witness :
    get_all_commits_since (.ok "") = .ok [""] :=
  (c10_split_never_empty "" constDiff "a").2.2.1

/-- Fallible variant of the relaxed detector: the same queries in source
order, with the backend allowed to fail. The source installs no handler, so
the first failing query aborts evaluation and its error is returned
unchanged. -/
def check_refactoring_has_happenedE {ε : Type}
    (git_compare_commits : String → String → Except ε Changes)
    (commit_a commit_b : String) : Except ε Bool := do
  let commit_ap := parentRef commit_a
  let changes_ap_to_a ← git_compare_commits commit_ap commit_a
  let changes_ap_to_b ← git_compare_commits commit_ap commit_b
  let changes_a_to_b ← git_compare_commits commit_a commit_b
  pure (decide (changes_ap_to_a + changes_a_to_b ≠ changes_ap_to_b))

/-- Fallible variant of the strict detector, five queries in source order. -/
def check_refactoring_commitE {ε : Type}
    (git_compare_commits : String → String → Except ε Changes)
    (commit_a commit_b : String) : Except ε Bool := do
  let commit_ap := parentRef commit_a
  let commit_bp := parentRef commit_b
  let changes_ap_to_a ← git_compare_commits commit_ap commit_a
  let changes_ap_to_bp ← git_compare_commits commit_ap commit_bp
  let changes_ap_to_b ← git_compare_commits commit_ap commit_b
  let changes_a_to_bp ← git_compare_commits commit_a commit_bp
  let changes_a_to_b ← git_compare_commits commit_a commit_b
  pure ((decide (changes_ap_to_a + changes_a_to_b ≠ changes_ap_to_b)) &&
    !(decide (changes_ap_to_a + changes_a_to_bp ≠ changes_ap_to_bp)))

/-- Backend for the C8 witness in which every query reports a missing
parent. -/
def noParentDiffA : String → String → Except SSZZException Changes :=
  fun _ _ => .error .commitWithoutParent

/-- Backend for the C8 witness in which exactly the queries against B's
first parent fail. -/
def noParentDiffB : String → String → Except SSZZException Changes :=
  fun _ y => if y = parentRef "b" then .error .commitWithoutParent
    else .ok (Changes.mk 0 0)

/-- C8: when a backend diff query fails with `CommitWithoutParent` (the
spec's `NoParent`, raised by the history provider when a first parent of
commit A or commit B is requested on a root commit), the error propagates
out of the detector uncaught: the relaxed and strict detectors on a
parentless A, and the strict detector on a parentless B — the only variant
that queries B's parent — return that very error. -/
theorem c8_noparent_propagates (diff : String → String → Except SSZZException Changes)
    (commit_a commit_b : String) :
    (diff (parentRef commit_a) commit_a = .error .commitWithoutParent →
      check_refactoring_has_happenedE diff commit_a commit_b =
          .error .commitWithoutParent ∧
        check_refactoring_commitE diff commit_a commit_b =
          .error .commitWithoutParent) ∧
    (∀ v, diff (parentRef commit_a) commit_a = .ok v →
      diff (parentRef commit_a) (parentRef commit_b) = .error .commitWithoutParent →
      check_refactoring_commitE diff commit_a commit_b =
        .error .commitWithoutParent) := by
  constructor
  · intro h
    constructor
    · simp [check_refactoring_has_happenedE, h, Bind.bind, Except.bind]
    · simp [check_refactoring_commitE, h, Bind.bind, Except.bind]
  · intro v hok herr
    simp [check_refactoring_commitE, hok, herr, Bind.bind, Except.bind]

/-- Witness for C8: a provider failing on every query, and one failing
exactly on B's first parent. -/
theorem c8_noparent_propagates_witness :
    check_refactoring_has_happenedE noParentDiffA "a" "b" =
        .error SSZZException.commitWithoutParent ∧
      check_refactoring_commitE noParentDiffB "a" "b" =
        .error SSZZException.commitWithoutParent :=
  ⟨((c8_noparent_propagates noParentDiffA "a" "b").1 rfl).1,
   (c8_noparent_propagates noParentDiffB "a" "b").2 (Changes.mk 0 0) rfl rfl⟩
